import Mathlib

/-!
Verification of the ShiftMatch extraction and scoring core (`src/app.py`).

The Python source is shallowly embedded: strings become `List Char`, the
regular-expression searches used by the crawler are modelled as explicit
character-level matchers with the same leftmost-match semantics, and the
stateful parsing loops become structural recursions that thread the same
state (current day, emission counter) explicitly.  Machine integers are
`Int`/`Nat`; Python-level exceptions become `Except`/`Option` results.
-/

namespace ShiftMatch

/-- Python strings are modelled as lists of characters. -/
abbrev Str := List Char

/-- Coerce a Lean string literal into the embedding's string type. -/
def str (s : String) : Str := s.data

/-- Python `\s` (whitespace class), restricted to the ASCII whitespace
characters that can occur in the crawled text. -/
def isWs (c : Char) : Bool :=
  c == ' ' || c == '\t' || c == '\n' || c == '\r' ||
  c == Char.ofNat 11 || c == Char.ofNat 12

/-- Python `str.lower()` (ASCII range, which covers all catalog data). -/
def lowerStr (s : Str) : Str := s.map Char.toLower

/-- Python `str.strip()`: drop whitespace from both ends. -/
def stripStr (s : Str) : Str :=
  ((s.dropWhile isWs).reverse.dropWhile isWs).reverse

/-- Numeric value of a digit character. -/
def digitVal (c : Char) : Nat := c.toNat - '0'.toNat

/-- Python truthiness of a string: nonempty. -/
def truthy (s : Str) : Bool := !s.isEmpty

/-- Python `a or b` on an optional string (`None`/empty are falsy). -/
def pyOrOpt (a b : Option Str) : Option Str :=
  match a with
  | some s => if truthy s then some s else b
  | none => b

/-- Python `a or b` where `a` is an optional string and `b` a string. -/
def pyOrD (a : Option Str) (b : Str) : Str :=
  match a with
  | some s => if truthy s then s else b
  | none => b

/-! ### The time regex `(\d{1,2}):(\d{2})\s*([APap][Mm])` -/

/-- First letter of the AM/PM marker: `[APap]`. -/
def isAmPmLetter (c : Char) : Bool := c == 'A' || c == 'a' || c == 'P' || c == 'p'

/-- The marker denotes PM. -/
def isPmLetter (c : Char) : Bool := c == 'P' || c == 'p'

/-- Second letter of the AM/PM marker: `[Mm]`. -/
def isMLetter (c : Char) : Bool := c == 'M' || c == 'm'

/-- Match `:(\d{2})\s*([APap][Mm])` after the hour digits.  Returns
`(hour, minute, isPM)` on success.  `\s*` is greedy, and since the
`[APap]` class contains no whitespace the greedy skip is exact. -/
def matchTail (hour : Nat) (l : Str) : Option (Nat × Nat × Bool) :=
  match l with
  | ':' :: m1 :: m2 :: rest =>
    if m1.isDigit && m2.isDigit then
      match rest.dropWhile isWs with
      | a :: m :: _ =>
        if isAmPmLetter a && isMLetter m then
          some (hour, 10 * digitVal m1 + digitVal m2, isPmLetter a)
        else none
      | _ => none
    else none
  | _ => none

/-- Try the whole pattern anchored at the head of `l`: `\d{1,2}` is greedy,
so a two-digit hour is attempted first and the one-digit reading is the
backtracking alternative. -/
def tryAt (l : Str) : Option (Nat × Nat × Bool) :=
  match l with
  | d1 :: rest =>
    if d1.isDigit then
      match rest with
      | d2 :: rest2 =>
        if d2.isDigit then
          matchTail (10 * digitVal d1 + digitVal d2) rest2 <|>
            matchTail (digitVal d1) rest
        else matchTail (digitVal d1) rest
      | [] => none
    else none
  | [] => none

/-- `re.search`: leftmost match of the time pattern. -/
def findTime : Str → Option (Nat × Nat × Bool)
  | [] => none
  | c :: rest => tryAt (c :: rest) <|> findTime rest

/-! ### `ShiftMatchCrawler._classify_time` -/

/-- The 24-hour conversion performed inside `_classify_time`: a PM hour
other than 12 gains 12, then 12 AM becomes 0. -/
def to24 (hour : Nat) (isPM : Bool) : Nat :=
  let h1 := if isPM && hour != 12 then hour + 12 else hour
  if !isPM && h1 == 12 then 0 else h1

/-- The 24-hour hour `_classify_time` derives, when a time is found. -/
def classifyHour24 (timeRaw : Str) : Option Nat :=
  (findTime timeRaw).map (fun x => to24 x.1 x.2.2)

/-- `ShiftMatchCrawler._classify_time`. -/
def classifyTime (timeRaw : Str) : Str :=
  match findTime timeRaw with
  | none => str "Morning"
  | some (h, _, pm) =>
    let hour := to24 h pm
    if hour < 12 then str "Morning"
    else if hour < 17 then str "Afternoon"
    else if hour < 21 then str "Evening"
    else str "Overnight"

/-- The 24-hour hour the scorer's lateness term derives (it performs only
the PM adjustment and omits the 12 AM step). -/
def lateHour (timeRaw : Str) : Option Nat :=
  (findTime timeRaw).map (fun x => if x.2.2 && x.1 != 12 then x.1 + 12 else x.1)

/-! ### Catalogs and text classifiers -/

/-- `KNOWN_COMMITTEES`. -/
def KNOWN_COMMITTEES : List Str :=
  [str "Receiving", str "Stocking", str "Checkout", str "Produce",
   str "Maintenance", str "Food Processing", str "Office", str "Childcare",
   str "Orientation", str "Inventory", str "Shopping", str "Cashier",
   str "FTOP"]

/-- `DAY_NAMES`. -/
def DAY_NAMES : List Str :=
  [str "Monday", str "Tuesday", str "Wednesday", str "Thursday",
   str "Friday", str "Saturday", str "Sunday"]

/-- Python substring test `p in s`. -/
def isSubstr (p : Str) : Str → Bool
  | [] => p.isEmpty
  | c :: rest => p.isPrefixOf (c :: rest) || isSubstr p rest

/-- `ShiftMatchCrawler._fuzzy_committee`: first catalog entry whose
lower-cased name contains, or is contained in, the stripped lower-cased
input. -/
def fuzzyCommittee (text : Str) : Option Str :=
  let t := lowerStr (stripStr text)
  KNOWN_COMMITTEES.find? (fun c => isSubstr (lowerStr c) t || isSubstr t (lowerStr c))

/-- `ShiftMatchCrawler._is_day_name`:
`re.match(r"^(mon|tue|wed|thu|fri|sat|sun)", text.strip().lower())`. -/
def isDayName (text : Str) : Bool :=
  let t := lowerStr (stripStr text)
  (str "mon").isPrefixOf t || (str "tue").isPrefixOf t ||
  (str "wed").isPrefixOf t || (str "thu").isPrefixOf t ||
  (str "fri").isPrefixOf t || (str "sat").isPrefixOf t ||
  (str "sun").isPrefixOf t

/-- Python `str.title()` over the ASCII range: a letter is upper-cased
when the previous character is not a letter, lower-cased otherwise. -/
def titleAux : Bool → Str → Str
  | _, [] => []
  | prevCased, c :: rest =>
    (if prevCased then c.toLower else c.toUpper) :: titleAux c.isAlpha rest

/-- `ShiftMatchCrawler._normalize_day`. -/
def normalizeDay (text : Str) : Str :=
  let t := (lowerStr (stripStr text)).take 3
  match DAY_NAMES.find? (fun d => t.isPrefixOf (lowerStr d)) with
  | some d => d
  | none => titleAux false (stripStr text)

/-! ### Decimal rendering (Python `str(n)` and `f"{n:03d}"`) -/

/-- Little-endian decimal digits, with explicit fuel for structural
recursion; `natToRevDigits n n` is exact for every `n`. -/
def natToRevDigits : Nat → Nat → List Nat
  | 0, _ => []
  | fuel + 1, n => if n == 0 then [] else n % 10 :: natToRevDigits fuel (n / 10)

/-- Character of a decimal digit. -/
def digitChar : Nat → Char
  | 0 => '0' | 1 => '1' | 2 => '2' | 3 => '3' | 4 => '4'
  | 5 => '5' | 6 => '6' | 7 => '7' | 8 => '8' | 9 => '9'
  | _ => '*'

/-- Python `str(n)` for a natural number. -/
def natRepr (n : Nat) : Str :=
  if n == 0 then ['0'] else ((natToRevDigits n n).reverse).map digitChar

/-- Python `str(i)` for an integer. -/
def intRepr (i : Int) : Str :=
  if i < 0 then '-' :: natRepr i.natAbs else natRepr i.natAbs

/-- `f"shift_{counter:03d}"`: the id format, zero-padded to width 3. -/
def mkId (n : Nat) : Str :=
  str "shift_" ++ (List.replicate (3 - (natRepr n).length) '0' ++ natRepr n)

/-- Digit run of a Python integer literal after its first character: each
underscore must sit between two digits. -/
def digitsUnd : Str → Bool
  | [] => true
  | '_' :: c :: rest => c.isDigit && digitsUnd (c :: rest)
  | c :: rest => c.isDigit && digitsUnd rest

/-- Python `int(s)` on an unsigned body: a digit followed by digits with
single interior underscores; anything else raises `ValueError` (`none`). -/
def pyParseDigits (s : Str) : Option Nat :=
  match s with
  | [] => none
  | c :: rest =>
    if c.isDigit && digitsUnd rest then
      some ((s.filter Char.isDigit).foldl (fun acc d => 10 * acc + digitVal d) 0)
    else none

/-- Python `int(s)` including the sign. -/
def pyInt (s : Str) : Option Int :=
  match stripStr s with
  | '+' :: rest => (pyParseDigits rest).map Int.ofNat
  | '-' :: rest => (pyParseDigits rest).map (fun n => -(n : Int))
  | t => (pyParseDigits t).map Int.ofNat

/-! ### Canonical shift records -/

/-- Provenance of a record: table index, or the grid container. -/
inductive SourceLoc where
  | table : Nat → SourceLoc
  | grid : SourceLoc
deriving DecidableEq

/-- A canonical shift record, the dictionary built by both extractors.
`date`, `status` and `is_carrot` are only present on grid records;
`slots` is optional because scoring accepts externally supplied records
in which the key may be absent. -/
structure Shift where
  id : Str := []
  day : Str := []
  date : Option Str := none
  time_raw : Str := []
  time_slot : Str := []
  committee : Str := []
  description : Str := []
  signup_url : Str := []
  slots : Option Str := none
  status : Option Str := none
  is_carrot : Option Bool := none
  source_table : SourceLoc := SourceLoc.table 0
  source_row : Nat := 0
deriving DecidableEq

/-- `ShiftMatchCrawler.BASE`. -/
def BASE : Str := str "https://members.foodcoop.com"

/-- Resolve a relative href against `BASE`. -/
def resolveUrl (href : Str) : Str :=
  if (str "http").isPrefixOf href then href else BASE ++ href

/-! ### Table strategy -/

/-- A table cell: its stripped text and, when present, the href of the
first `<a href=...>` inside it. -/
structure Cell where
  text : Str := []
  linkHref : Option Str := none
deriving DecidableEq

/-- A table row and a table. -/
abbrev Row := List Cell
abbrev Table := List Row

/-- The header map built by `_detect_headers`: optional column index per
recognized field (later keyword matches overwrite earlier ones). -/
structure HMap where
  day : Option Nat := none
  time : Option Nat := none
  committee : Option Nat := none
  slots : Option Nat := none
  description : Option Nat := none
deriving DecidableEq

/-- Python truthiness of the header dict: some key was assigned. -/
def HMap.nonempty (m : HMap) : Bool :=
  m.day.isSome || m.time.isSome || m.committee.isSome ||
  m.slots.isSome || m.description.isSome

/-- `ShiftMatchCrawler._detect_headers`: keyword scan over the header
row's cell texts (an `elif` chain, first keyword group wins per cell). -/
def detectHeaders (headerRow : Row) : HMap :=
  headerRow.enum.foldl (fun m p =>
    let txt := lowerStr p.2.text
    if isSubstr (str "day") txt || isSubstr (str "date") txt then
      { m with day := some p.1 }
    else if isSubstr (str "time") txt || isSubstr (str "hour") txt ||
        isSubstr (str "when") txt then
      { m with time := some p.1 }
    else if isSubstr (str "committee") txt || isSubstr (str "squad") txt ||
        isSubstr (str "dept") txt || isSubstr (str "area") txt ||
        isSubstr (str "job") txt then
      { m with committee := some p.1 }
    else if isSubstr (str "slot") txt || isSubstr (str "open") txt ||
        isSubstr (str "avail") txt || isSubstr (str "remain") txt then
      { m with slots := some p.1 }
    else if isSubstr (str "desc") txt || isSubstr (str "detail") txt ||
        isSubstr (str "note") txt || isSubstr (str "info") txt then
      { m with description := some p.1 }
    else m) {}

/-- `ShiftMatchCrawler._safe_idx`. -/
def safeIdx (l : List Str) : Option Nat → Option Str
  | none => none
  | some n => l.get? n

/-- `^\d+$` applied to the stripped text: nonempty and all digits. -/
def isAllDigits (s : Str) : Bool := !s.isEmpty && s.all Char.isDigit

/-- The mutable locals of `_extract_shift`'s opportunistic cell scan. -/
structure ScanState where
  day : Option Str
  time_raw : Str
  committee : Str
  slots : Str
deriving DecidableEq

/-- One iteration of the `for idx, txt in enumerate(texts)` loop: each
field is filled only when still falsy. -/
def scanStep (st : ScanState) (txt : Str) : ScanState :=
  { day :=
      if !(pyOrD st.day []).isEmpty then st.day
      else if isDayName txt then some (normalizeDay txt) else st.day,
    time_raw :=
      if st.time_raw.isEmpty && (findTime txt).isSome then txt else st.time_raw,
    committee :=
      if st.committee.isEmpty then
        match fuzzyCommittee txt with
        | some c => c
        | none => st.committee
      else st.committee,
    slots :=
      if st.slots.isEmpty && isAllDigits (stripStr txt) then stripStr txt
      else st.slots }

/-- The whole cell scan. -/
def scanCells (st : ScanState) (texts : List Str) : ScanState :=
  texts.foldl scanStep st

/-- Condition on an href for the signup-link search. -/
def linkCond (href : Str) : Bool :=
  isSubstr (str "signup") (lowerStr href) ||
  isSubstr (str "shift") (lowerStr href) ||
  (str "http").isPrefixOf href

/-- The `for cell in cells` signup-link search: the first cell whose
first link satisfies `linkCond` supplies the url (the break sits inside
the condition, so a failing link leaves the loop running). -/
def findSignup : List Cell → Str
  | [] => []
  | c :: rest =>
    match c.linkHref with
    | some h => if linkCond h then resolveUrl h else findSignup rest
    | none => findSignup rest

/-- `" | ".join`. -/
def joinBar : List Str → Str
  | [] => []
  | [x] => x
  | x :: y :: rest => x ++ str " | " ++ joinBar (y :: rest)

/-- `" — ".join`. -/
def joinDash : List Str → Str
  | [] => []
  | [x] => x
  | x :: y :: rest => x ++ str " — " ++ joinDash (y :: rest)

/-- `ShiftMatchCrawler._extract_shift`.  `rnd` is the value
`random.randint(1, 6)` would produce for this row's slots fallback. -/
def extractShift (cells : List Cell) (hmap : HMap) (currentDay : Option Str)
    (tbl row : Nat) (rnd : Nat) : Option Shift :=
  let texts := cells.map Cell.text
  let day0 : Option Str :=
    if hmap.nonempty then pyOrOpt currentDay (safeIdx texts hmap.day)
    else currentDay
  let time0 : Str :=
    if hmap.nonempty then (safeIdx texts hmap.time).getD [] else []
  let committee0 : Str :=
    if hmap.nonempty then (safeIdx texts hmap.committee).getD [] else []
  let slots0 : Str :=
    if hmap.nonempty then (safeIdx texts hmap.slots).getD [] else []
  let descr0 : Str :=
    if hmap.nonempty then (safeIdx texts hmap.description).getD [] else []
  let st := scanCells
    { day := day0, time_raw := time0, committee := committee0, slots := slots0 }
    texts
  let signup := findSignup cells
  let description :=
    if descr0.isEmpty then
      joinBar (texts.filter (fun t =>
        truthy t &&
        (match st.day with
         | some d => t != d
         | none => true) &&
        t != st.time_raw))
    else descr0
  if st.time_raw.isEmpty && st.committee.isEmpty then none
  else some
    { id := [],
      day := pyOrD st.day (str "Unknown"),
      date := none,
      time_raw := st.time_raw,
      time_slot := classifyTime st.time_raw,
      committee := if st.committee.isEmpty then str "General" else st.committee,
      description := description.take 200,
      signup_url := signup,
      slots := some (if st.slots.isEmpty then natRepr rnd else st.slots),
      status := none,
      is_carrot := none,
      source_table := SourceLoc.table tbl,
      source_row := row }

/-- The `for row_idx, row in enumerate(rows[1:], start=1)` loop of
`_parse_shifts`: threads the current day and the id counter, returns the
emitted records and the final counter value. -/
def parseRows (hmap : HMap) (tbl : Nat) (rnd : Nat → Nat → Nat) :
    List Row → Nat → Option Str → Nat → List Shift × Nat
  | [], _, _, counter => ([], counter)
  | row :: rest, rowIdx, currentDay, counter =>
    let texts := row.map Cell.text
    if row.length == 1 && isDayName (texts.headD []) then
      parseRows hmap tbl rnd rest (rowIdx + 1)
        (some (normalizeDay (texts.headD []))) counter
    else if row.length < 2 then
      parseRows hmap tbl rnd rest (rowIdx + 1) currentDay counter
    else
      match extractShift row hmap currentDay tbl rowIdx (rnd tbl rowIdx) with
      | some s =>
        let out := parseRows hmap tbl rnd rest (rowIdx + 1) currentDay (counter + 1)
        ({ s with id := mkId (counter + 1) } :: out.1, out.2)
      | none => parseRows hmap tbl rnd rest (rowIdx + 1) currentDay counter

/-- The `for table_idx, table in enumerate(tables)` loop of
`_parse_shifts`: empty tables are skipped, the counter persists across
tables, and the current day resets per table. -/
def parseShiftsAux (rnd : Nat → Nat → Nat) :
    List Table → Nat → Nat → List Shift
  | [], _, _ => []
  | t :: ts, tblIdx, counter =>
    match t with
    | [] => parseShiftsAux rnd ts (tblIdx + 1) counter
    | headerRow :: dataRows =>
      let hmap := detectHeaders headerRow
      let out := parseRows hmap tblIdx rnd dataRows 1 none counter
      out.1 ++ parseShiftsAux rnd ts (tblIdx + 1) out.2

/-- `ShiftMatchCrawler._parse_shifts`. -/
def parseShifts (tables : List Table) (rnd : Nat → Nat → Nat) : List Shift :=
  parseShiftsAux rnd tables 0 0

/-! ### Grid strategy -/

/-- An `<a class="shift">` element of the grid layout. -/
structure GridLink where
  classes : List Str := []
  btext : Option Str := none
  text : Str := []
  href : Str := []
deriving DecidableEq

/-- A `div.col` day column: the text of its first `<p>` (if any) and its
shift links. -/
structure GridCol where
  header : Option Str := none
  links : List GridLink := []
deriving DecidableEq

/-- Python `s.replace(p, "")` for a nonempty pattern: remove every
non-overlapping left-to-right occurrence.  Structural fuel (always
instantiated with the string length, which bounds the scan). -/
def replaceAllAux (p : Str) : Nat → Str → Str
  | _, [] => []
  | 0, s => s
  | fuel + 1, c :: rest =>
    if 0 < p.length && p.isPrefixOf (c :: rest) then
      replaceAllAux p fuel ((c :: rest).drop p.length)
    else c :: replaceAllAux p fuel rest

/-- Python `s.replace(p, "")`. -/
def replaceAll (p s : Str) : Str := replaceAllAux p s.length s

/-- The emoji character class stripped by `_parse_column_layout`. -/
def isEmojiChar (c : Char) : Bool :=
  let n := c.toNat
  (0x1F300 ≤ n && n ≤ 0x1FAFF) || (0x2702 ≤ n && n ≤ 0x27B0) ||
  (0xFE00 ≤ n && n ≤ 0xFE0F) || n == 0x200D ||
  (0x2600 ≤ n && n ≤ 0x26FF) || (0x2700 ≤ n && n ≤ 0x27BF)

/-- `re.sub(r"^\*+\s*", "", s)`: strip a leading run of asterisks and the
whitespace after it. -/
def stripLeadingStars (s : Str) : Str :=
  match s with
  | '*' :: _ => (s.dropWhile (fun c => c == '*')).dropWhile isWs
  | _ => s

/-- The weekday abbreviations of the grid header pattern, in the
alternation order of the regex. -/
def DAY_ABBRS : List Str :=
  [str "Mon", str "Tue", str "Wed", str "Thu", str "Fri", str "Sat", str "Sun"]

/-- Greedy `\d{1,2}`: returns the matched digits and the rest. -/
def matchD12 : Str → Option (Str × Str)
  | [] => none
  | a :: rest =>
    if a.isDigit then
      match rest with
      | b :: rest2 => if b.isDigit then some ([a, b], rest2) else some ([a], rest)
      | [] => some ([a], [])
    else none

/-- `\d{4}`. -/
def matchD4 : Str → Option (Str × Str)
  | a :: b :: c :: d :: rest =>
    if a.isDigit && b.isDigit && c.isDigit && d.isDigit then
      some ([a, b, c, d], rest)
    else none
  | _ => none

/-- A literal `/`. -/
def expectSlash : Str → Option Str
  | '/' :: r => some r
  | _ => none

/-- `(\d{1,2}/\d{1,2}/\d{4})`, anchored at the head; the greedy digit
runs need no real backtracking because a digit can never satisfy the
following `/`. -/
def matchSlashDate (s : Str) : Option Str := do
  let p1 ← matchD12 s
  let r2 ← expectSlash p1.2
  let p2 ← matchD12 r2
  let r4 ← expectSlash p2.2
  let p3 ← matchD4 r4
  pure (p1.1 ++ ['/'] ++ p2.1 ++ ['/'] ++ p3.1)

/-- `re.match(r"(Mon|Tue|Wed|Thu|Fri|Sat|Sun)\s*(\d{1,2}/\d{1,2}/\d{4})", h)`:
returns the two capture groups. -/
def parseHeader (h : Str) : Option (Str × Str) :=
  match DAY_ABBRS.find? (fun a => a.isPrefixOf h) with
  | some a => (matchSlashDate ((h.drop 3).dropWhile isWs)).map (fun d => (a, d))
  | none => none

/-- The record built for one grid link (`counter` is the already
incremented id counter). -/
def gridLinkShift (day dateStr : Str) (counter : Nat) (link : GridLink) : Shift :=
  let is_unavail := link.classes.contains (str "unavail")
  let has_worker := link.classes.contains (str "worker")
  let is_carrot := link.classes.contains (str "carrot")
  let time_raw := link.btext.getD []
  let committee_text0 := link.text
  let committee_text1 :=
    if !time_raw.isEmpty then replaceAll time_raw committee_text0
    else committee_text0
  let committee_text := stripStr (replaceAll (str "🥕") committee_text1)
  let committee_clean0 := stripStr (committee_text.filter (fun c => !isEmojiChar c))
  let committee_clean := stripStr (stripLeadingStars committee_clean0)
  let href := stripStr link.href
  let signup_url := if href.isEmpty then [] else resolveUrl href
  let statusSlots : Str × Str :=
    if is_unavail then (str "unavailable", str "0")
    else if has_worker then (str "filled", str "0")
    else (str "available", str "1")
  let desc_parts :=
    (if is_carrot then [str "Carrot shift (extra credit)"] else []) ++
    (if is_unavail then [str "Currently unavailable"] else []) ++
    (if has_worker then [str "Worker assigned"] else [])
  { id := mkId counter,
    day := day,
    date := some dateStr,
    time_raw := time_raw,
    time_slot := classifyTime time_raw,
    committee := if committee_clean.isEmpty then str "General" else committee_clean,
    description := joinDash desc_parts,
    signup_url := signup_url,
    slots := some statusSlots.2,
    status := some statusSlots.1,
    is_carrot := some is_carrot,
    source_table := SourceLoc.grid,
    source_row := counter }

/-- The `for link in shift_links` loop of one column. -/
def emitLinks (day dateStr : Str) : List GridLink → Nat → List Shift × Nat
  | [], counter => ([], counter)
  | l :: ls, counter =>
    let out := emitLinks day dateStr ls (counter + 1)
    (gridLinkShift day dateStr (counter + 1) l :: out.1, out.2)

/-- The `for col in columns` loop of `_parse_column_layout`: a column
without a `<p>` is skipped wholesale (`continue`); otherwise the header
is matched against the day/date pattern and every link is emitted. -/
def parseColsAux : List GridCol → Nat → List Shift × Nat
  | [], counter => ([], counter)
  | col :: rest, counter =>
    match col.header with
    | none => parseColsAux rest counter
    | some htext =>
      let dayDate : Str × Str :=
        match parseHeader htext with
        | some p => (normalizeDay p.1, p.2)
        | none => (str "Unknown", [])
      let out := emitLinks dayDate.1 dayDate.2 col.links counter
      let out2 := parseColsAux rest out.2
      (out.1 ++ out2.1, out2.2)

/-- `ShiftMatchCrawler._parse_column_layout`: no grid container means an
empty result. -/
def parseColumnLayout (grid : Option (List GridCol)) : List Shift :=
  match grid with
  | none => []
  | some cols => (parseColsAux cols 0).1

/-! ### Extraction coordinator -/

/-- The already fetched shifts page, as the two extractors see it. -/
structure Document where
  tables : List Table
  grid : Option (List GridCol)

/-- The parsing portion of `ShiftMatchCrawler.get_shifts`: the table
strategy runs first, and the grid strategy only when it produced no
records. -/
def getShiftsParsed (doc : Document) (rnd : Nat → Nat → Nat) : List Shift :=
  let parsed := parseShifts doc.tables rnd
  if parsed.isEmpty then parseColumnLayout doc.grid else parsed

/-! ### ShiftMatcher -/

/-- A well-formed preference dictionary (every value a list of strings). -/
structure Prefs where
  days : List Str := []
  times : List Str := []
  committees : List Str := []
  excludedCommittees : List Str := []

/-- `ShiftMatcher`'s state after `__init__`: days/times/excluded are
lower-cased, committees are stored as given. -/
structure Matcher where
  days : List Str
  times : List Str
  committees : List Str
  excluded : List Str

/-- `ShiftMatcher.__init__` on well-formed preferences. -/
def mkMatcher (p : Prefs) : Matcher :=
  { days := p.days.map lowerStr,
    times := p.times.map lowerStr,
    committees := p.committees,
    excluded := p.excludedCommittees.map lowerStr }

/-- A loosely typed (JSON-like) preference value: a list of strings, a
bare string, or a number. -/
inductive PVal where
  | vList : List Str → PVal
  | vStr : Str → PVal
  | vInt : Int → PVal
deriving DecidableEq

/-- The Python exception raised by `__init__` on a non-iterable value. -/
inductive PyErr where
  | typeError : PyErr
deriving DecidableEq

/-- `[x.lower() for x in v]`: a list maps its items, a string iterates
into one-character strings, a number is not iterable and raises. -/
def pyLowerIter : PVal → Except PyErr (List Str)
  | .vList l => .ok (l.map lowerStr)
  | .vStr s => .ok (s.map (fun c => [c.toLower]))
  | .vInt _ => .error .typeError

/-- A loosely typed preference dictionary (`None` = key absent).  The
committees entry is kept well-formed: `__init__` stores it without
iterating, so it cannot raise there. -/
structure PyPrefs where
  days : Option PVal := none
  times : Option PVal := none
  committees : Option (List Str) := none
  excludedCommittees : Option PVal := none

/-- `ShiftMatcher.__init__` on a loosely typed dictionary: the three
comprehensions run in source order and propagate the first `TypeError`. -/
def pyInit (p : PyPrefs) : Except PyErr Matcher := do
  let days ← pyLowerIter (p.days.getD (.vList []))
  let times ← pyLowerIter (p.times.getD (.vList []))
  let committees := p.committees.getD []
  let excluded ← pyLowerIter (p.excludedCommittees.getD (.vList []))
  pure { days := days, times := times, committees := committees,
         excluded := excluded }

/-- The per-factor explanation dictionary built by `ShiftMatcher.score`;
the first four keys are always written, `late` only when the lateness
penalty fires. -/
structure Breakdown where
  committee : Str
  day : Str
  time : Str
  slots : Str
  late : Option Str
deriving DecidableEq

/-- The dictionary returned by `ShiftMatcher.score`. -/
structure Scored where
  shift : Shift
  score : Int
  breakdown : Breakdown
deriving DecidableEq

/-- The committee-rank term: score delta and explanation line. -/
def committeeTerm (m : Matcher) (committee : Str) : Int × Str :=
  let comm_lower := m.committees.map lowerStr
  if !comm_lower.isEmpty then
    match comm_lower.findIdx? (fun c => c == lowerStr committee) with
    | some rank =>
      if rank == 0 then
        (10, str "Top choice: " ++ committee ++ str " (+10%)")
      else
        (-(5 * (rank : Int)),
         str "Rank #" ++ natRepr (rank + 1) ++ str ": " ++ committee ++
           str " (-" ++ natRepr (5 * rank) ++ str "%)")
    | none => (-25, committee ++ str " not in your preferences (-25%)")
  else (0, str "No committee preference set")

/-- The day-matching term. -/
def dayTerm (m : Matcher) (dayField : Str) : Int × Str :=
  if !m.days.isEmpty then
    if lowerStr dayField ∈ m.days then
      (0, dayField ++ str " is a preferred day")
    else (-20, dayField ++ str " is not preferred (-20%)")
  else (0, str "No day preference set")

/-- The time-matching term. -/
def timeTerm (m : Matcher) (timeSlotField : Str) : Int × Str :=
  if !m.times.isEmpty then
    if lowerStr timeSlotField ∈ m.times then
      (0, timeSlotField ++ str " is a preferred time")
    else (-15, timeSlotField ++ str " is not preferred (-15%)")
  else (0, str "No time preference set")

/-- Shared tail of the slots term once `int()` succeeded. -/
def slotsFromInt (n : Int) : Int × Str :=
  if n > 3 then (5, intRepr n ++ str " slots available (+5%)")
  else if n == 1 then (-5, str "Only 1 slot left (-5%)")
  else (0, intRepr n ++ str " slots available")

/-- The slots term: `int(shift.get("slots", 0))` under try/except — a
missing key parses the integer default 0, a non-numeric string raises
and is caught. -/
def slotsTerm (slots : Option Str) : Int × Str :=
  match slots with
  | none => slotsFromInt 0
  | some s =>
    match pyInt s with
    | some n => slotsFromInt n
    | none => (0, str "Slots unknown")

/-- Whether the lateness penalty fires: a time was found and the
scorer-derived hour is at least 21. -/
def lateFire (timeRaw : Str) : Bool :=
  match lateHour timeRaw with
  | some h => 21 ≤ h
  | none => false

/-- The base score accumulated before the lateness check. -/
def scoreBase (m : Matcher) (s : Shift) : Int :=
  100 + (committeeTerm m s.committee).1 + (dayTerm m s.day).1 +
    (timeTerm m s.time_slot).1 + (slotsTerm s.slots).1

/-- `ShiftMatcher.score`. -/
def score (m : Matcher) (s : Shift) : Scored :=
  let lf := lateFire s.time_raw
  let base := scoreBase m s + (if lf then -10 else 0)
  { shift := s,
    score := max 0 (min 120 base),
    breakdown :=
      { committee := (committeeTerm m s.committee).2,
        day := (dayTerm m s.day).2,
        time := (timeTerm m s.time_slot).2,
        slots := (slotsTerm s.slots).2,
        late := if lf then some (str "Late evening shift (-10%)") else none } }

/-- The filter of `ShiftMatcher.rank`:
`s.get("committee", "").lower() not in self.excluded`. -/
def keepShift (m : Matcher) (s : Shift) : Bool :=
  !(decide (lowerStr s.committee ∈ m.excluded))

/-- Stable descending insertion: an element is placed after every
earlier element of strictly greater or equal score it does not beat. -/
def insertDesc (x : Scored) : List Scored → List Scored
  | [] => [x]
  | y :: ys => if x.score < y.score then y :: insertDesc x ys else x :: y :: ys

/-- Stable descending sort by score — the embedding of Python's stable
`list.sort(key=lambda x: x["score"], reverse=True)`. -/
def sortDesc : List Scored → List Scored
  | [] => []
  | x :: xs => insertDesc x (sortDesc xs)

/-- `ShiftMatcher.rank`. -/
def rank (m : Matcher) (shifts : List Shift) : List Scored :=
  sortDesc ((shifts.filter (keepShift m)).map (score m))

/-- `ShiftMatcher.top`. -/
def top (m : Matcher) (shifts : List Shift) (n : Nat) : List Scored :=
  (rank m shifts).take n

/-! ### Decimal parsing used to invert the id format -/

/-- Big-endian decimal accumulator: the left inverse of the rendering. -/
def decFold : Str → Nat → Nat
  | [], a => a
  | c :: rest, a => decFold rest (10 * a + digitVal c)

/-- Recover the counter from an id string by parsing the digits after
the six-character `shift_` prefix. -/
def parseId (s : Str) : Nat := decFold (s.drop 6) 0

/-- The committee component of the opportunistic cell scan on its own
(the loop updates each field independently). -/
def scanC : Str → List Str → Str
  | acc, [] => acc
  | acc, t :: ts =>
    scanC
      (if acc.isEmpty then
        match fuzzyCommittee t with
        | some c => c
        | none => acc
      else acc) ts

/-! ### Concrete inputs used by witnesses and counterexamples -/

/-- A grid shift link used by the C6 counterexample and witness. -/
def c6link : GridLink :=
  { classes := [], btext := some (str "6:30pm"),
    text := str "6:30pm Bathroom", href := str "/services/shift_claim/7/" }

/-- A grid column with a shift link but no `<p>` header. -/
def c6col : GridCol := { header := none, links := [c6link] }

/-- A grid column whose header text does not match the day/date
pattern. -/
def c6wcol : GridCol := { header := some (str "Holiday"), links := [c6link] }

/-- The cells of the C10 witness: an empty first cell, then a time. -/
def c10cells : List Cell := [{ text := [] }, { text := str "9:00AM" }]

/-- The preference set of the C3 witness: FTOP excluded. -/
def c3prefs : Prefs := { excludedCommittees := [str "FTOP"] }

/-- The two records of the C3 witness. -/
def c3ftop : Shift := { committee := str "ftop", day := str "Monday" }

/-- The surviving record of the C3 witness. -/
def c3prod : Shift := { committee := str "Produce", day := str "Tuesday" }

/-- The shift of the C5 witness: a 9:30 PM record. -/
def c5shift : Shift := { time_raw := str "9:30PM", day := str "Friday" }

/-- A record with no slots entry, for the C7 counterexample. -/
def c7shift : Shift := { committee := str "Produce" }

/-- A record with a non-numeric slots string, for the C7 witness. -/
def c7wshift : Shift := { committee := str "Produce", slots := some (str "a few") }

/-- The loosely typed preference dictionary of C8's failing input:
`{"days": 5}`. -/
def badPrefs : PyPrefs := { days := some (.vInt 5) }

/-! ## Lemmas -/

/-- The sequential 24-hour conversion of `_classify_time` agrees with the
spec's case description. -/
theorem to24_eq (h : Nat) (pm : Bool) :
    to24 h pm =
      if pm = true ∧ ¬h = 12 then h + 12
      else if pm = false ∧ h = 12 then 0
      else h := by
  cases pm <;> by_cases h12 : h = 12 <;> simp [to24, h12]

/-- Digit characters decode to their value. -/
theorem digitVal_digitChar {d : Nat} (h : d < 10) :
    digitVal (digitChar d) = d := by
  interval_cases d <;> rfl

/-- Folding over an appended string composes. -/
theorem decFold_append (s t : Str) : ∀ a, decFold (s ++ t) a = decFold t (decFold s a) := by
  induction s with
  | nil => intro a; rfl
  | cons c rest ih =>
    intro a
    rw [List.cons_append]
    show decFold (rest ++ t) (10 * a + digitVal c) =
      decFold t (decFold rest (10 * a + digitVal c))
    exact ih _

/-- Decoding the rendered digits of `n` recovers `n`. -/
theorem decFold_revDigits :
    ∀ (fuel n a : Nat), n ≤ fuel →
      decFold (((natToRevDigits fuel n).reverse).map digitChar) a =
        a * 10 ^ (natToRevDigits fuel n).length + n := by
  intro fuel
  induction fuel with
  | zero =>
    intro n a hn
    interval_cases n
    simp [natToRevDigits, decFold]
  | succ f ih =>
    intro n a hn
    by_cases h0 : n = 0
    · subst h0
      simp [natToRevDigits, decFold]
    · rw [natToRevDigits, if_neg (by simpa using h0)]
      rw [List.reverse_cons, List.map_append, decFold_append]
      have hdiv : n / 10 ≤ f := by
        have : n / 10 < n := Nat.div_lt_self (Nat.pos_of_ne_zero h0) (by norm_num)
        omega
      rw [ih (n / 10) a hdiv]
      simp only [List.map_cons, List.map_nil, decFold]
      rw [digitVal_digitChar (Nat.mod_lt n (by norm_num))]
      have hm : 10 * (n / 10) + n % 10 = n := by omega
      rw [List.length_cons, pow_succ]
      calc 10 * (a * 10 ^ (natToRevDigits f (n / 10)).length + n / 10) + n % 10
          = a * (10 ^ (natToRevDigits f (n / 10)).length * 10) +
              (10 * (n / 10) + n % 10) := by ring
        _ = a * (10 ^ (natToRevDigits f (n / 10)).length * 10) + n := by rw [hm]

/-- Leading zero padding does not change the decoded value. -/
theorem decFold_replicate (k : Nat) (s : Str) :
    decFold (List.replicate k '0' ++ s) 0 = decFold s 0 := by
  induction k with
  | zero => rfl
  | succ k ih =>
    rw [List.replicate_succ, List.cons_append]
    show decFold (List.replicate k '0' ++ s) (10 * 0 + digitVal '0') = decFold s 0
    simpa using ih

/-- Decoding `natRepr n` recovers `n`. -/
theorem decFold_natRepr (n : Nat) : decFold (natRepr n) 0 = n := by
  by_cases h0 : n = 0
  · subst h0
    rfl
  · rw [natRepr, if_neg (by simpa using h0)]
    simpa using decFold_revDigits n n 0 le_rfl

/-- The id format round-trips through the decimal parse. -/
theorem parseId_mkId (n : Nat) : parseId (mkId n) = n := by
  rw [parseId, mkId]
  have h6 : (str "shift_").length = 6 := rfl
  rw [← h6, List.drop_left, decFold_replicate, decFold_natRepr]

/-- `f"shift_{n:03d}"` is injective in the counter. -/
theorem mkId_injective : Function.Injective mkId := by
  intro a b h
  calc a = parseId (mkId a) := (parseId_mkId a).symm
    _ = parseId (mkId b) := by rw [h]
    _ = b := parseId_mkId b

/-- The table-strategy row loop emits ids sequentially from the counter
it is given, and returns the counter advanced by the emission count. -/
theorem parseRows_ids (hmap : HMap) (tbl : Nat) (rnd : Nat → Nat → Nat) :
    ∀ (rows : List Row) (rowIdx : Nat) (curDay : Option Str) (k : Nat),
      ((parseRows hmap tbl rnd rows rowIdx curDay k).1.map Shift.id =
        (List.range' (k + 1)
          (parseRows hmap tbl rnd rows rowIdx curDay k).1.length).map mkId) ∧
      (parseRows hmap tbl rnd rows rowIdx curDay k).2 =
        k + (parseRows hmap tbl rnd rows rowIdx curDay k).1.length := by
  intro rows
  induction rows with
  | nil =>
    intro rowIdx curDay k
    simp [parseRows]
  | cons row rest ih =>
    intro rowIdx curDay k
    simp only [parseRows]
    split
    · exact ih (rowIdx + 1) _ k
    · split
      · exact ih (rowIdx + 1) curDay k
      · split
        · rename_i s hs
          have h := ih (rowIdx + 1) curDay (k + 1)
          refine ⟨?_, ?_⟩
          · simp only [List.map_cons, List.length_cons]
            rw [h.1, List.range'_succ]
            rfl
          · simp only [List.length_cons]
            rw [h.2]
            omega
        · exact ih (rowIdx + 1) curDay k

/-- The table loop of `_parse_shifts` emits ids sequentially from the
counter it is given. -/
theorem parseShiftsAux_ids (rnd : Nat → Nat → Nat) :
    ∀ (tables : List Table) (tblIdx k : Nat),
      (parseShiftsAux rnd tables tblIdx k).map Shift.id =
        (List.range' (k + 1) (parseShiftsAux rnd tables tblIdx k).length).map mkId := by
  intro tables
  induction tables with
  | nil =>
    intro tblIdx k
    simp [parseShiftsAux]
  | cons t ts ih =>
    intro tblIdx k
    cases t with
    | nil => simpa [parseShiftsAux] using ih (tblIdx + 1) k
    | cons headerRow dataRows =>
      simp only [parseShiftsAux]
      have hrows := parseRows_ids (detectHeaders headerRow) tblIdx rnd dataRows 1 none k
      rw [List.map_append, hrows.1, ih (tblIdx + 1) _, hrows.2, List.length_append]
      rw [← List.map_append]
      congr 1
      rw [show k + (parseRows (detectHeaders headerRow) tblIdx rnd dataRows 1 none
          k).1.length + 1 =
        (k + 1) + 1 *
          (parseRows (detectHeaders headerRow) tblIdx rnd dataRows 1 none
            k).1.length from by omega]
      rw [List.range'_append]
      congr 1
      omega

/-- The grid link loop emits ids sequentially from the counter it is
given, one record per link. -/
theorem emitLinks_ids (day dateStr : Str) :
    ∀ (ls : List GridLink) (k : Nat),
      ((emitLinks day dateStr ls k).1.map Shift.id =
        (List.range' (k + 1) (emitLinks day dateStr ls k).1.length).map mkId) ∧
      (emitLinks day dateStr ls k).2 =
        k + (emitLinks day dateStr ls k).1.length ∧
      (emitLinks day dateStr ls k).1.length = ls.length := by
  intro ls
  induction ls with
  | nil =>
    intro k
    simp [emitLinks]
  | cons l ls ih =>
    intro k
    have h := ih (k + 1)
    simp only [emitLinks, List.map_cons, List.length_cons]
    refine ⟨?_, ?_, ?_⟩
    · rw [h.1, List.range'_succ]
      rfl
    · rw [h.2.1]
      omega
    · rw [h.2.2]

/-- The column loop of `_parse_column_layout` emits ids sequentially
from the counter it is given. -/
theorem parseColsAux_ids :
    ∀ (cols : List GridCol) (k : Nat),
      ((parseColsAux cols k).1.map Shift.id =
        (List.range' (k + 1) (parseColsAux cols k).1.length).map mkId) ∧
      (parseColsAux cols k).2 = k + (parseColsAux cols k).1.length := by
  intro cols
  induction cols with
  | nil =>
    intro k
    simp [parseColsAux]
  | cons col rest ih =>
    intro k
    cases hh : col.header with
    | none => simpa [parseColsAux, hh] using ih k
    | some htext =>
      simp only [parseColsAux, hh]
      set dd : Str × Str :=
        (match parseHeader htext with
         | some p => (normalizeDay p.1, p.2)
         | none => (str "Unknown", [])) with hdd
      have hlinks := emitLinks_ids dd.1 dd.2 col.links k
      have hrest := ih (emitLinks dd.1 dd.2 col.links k).2
      refine ⟨?_, ?_⟩
      · rw [List.map_append, hlinks.1, hrest.1, hlinks.2.1, List.length_append]
        rw [← List.map_append]
        congr 1
        rw [show k + (emitLinks dd.1 dd.2 col.links k).1.length + 1 =
          (k + 1) + 1 * (emitLinks dd.1 dd.2 col.links k).1.length from by omega]
        rw [List.range'_append]
        congr 1
        omega
      · rw [List.length_append, hrest.2, hlinks.2.1]
        omega

/-- Every record emitted for one column carries that column's day and
date strings. -/
theorem emitLinks_mem (day dateStr : Str) :
    ∀ (ls : List GridLink) (k : Nat) (r : Shift),
      r ∈ (emitLinks day dateStr ls k).1 →
        r.day = day ∧ r.date = some dateStr := by
  intro ls
  induction ls with
  | nil =>
    intro k r hr
    simp [emitLinks] at hr
  | cons l ls ih =>
    intro k r hr
    simp only [emitLinks] at hr
    rcases List.mem_cons.mp hr with h | h
    · subst h
      exact ⟨rfl, rfl⟩
    · exact ih (k + 1) r h

/-- The record count of the column loop: columns without a header
contribute nothing, the others one record per link. -/
theorem parseColsAux_length :
    ∀ (cols : List GridCol) (k : Nat),
      (parseColsAux cols k).1.length =
        (cols.map (fun col =>
          match col.header with
          | none => 0
          | some _ => col.links.length)).sum := by
  intro cols
  induction cols with
  | nil =>
    intro k
    simp [parseColsAux]
  | cons col rest ih =>
    intro k
    cases hh : col.header with
    | none => simp [parseColsAux, hh, ih k]
    | some htext =>
      simp only [parseColsAux, hh, List.map_cons, List.sum_cons]
      rw [List.length_append, (emitLinks_ids _ _ col.links k).2.2, ih _]

/-- The embedded substring test coincides with list infix. -/
theorem isSubstr_iff (p : Str) : ∀ s : Str, isSubstr p s = true ↔ p <:+: s := by
  intro s
  induction s with
  | nil => simp [isSubstr, List.isEmpty_iff]
  | cons c rest ih =>
    simp only [isSubstr, Bool.or_eq_true, List.isPrefixOf_iff_prefix, ih,
      List.infix_cons_iff]

/-- The cell scan updates its committee component independently of the
other fields. -/
theorem scanCells_committee :
    ∀ (texts : List Str) (st : ScanState),
      (scanCells st texts).committee = scanC st.committee texts := by
  intro texts
  induction texts with
  | nil => intro st; rfl
  | cons t ts ih =>
    intro st
    show (scanCells (scanStep st t) ts).committee = scanC st.committee (t :: ts)
    rw [ih (scanStep st t)]
    rfl

/-- Once the committee is set (nonempty) the scan never changes it. -/
theorem scanC_stays : ∀ (ts : List Str) (acc : Str), acc ≠ [] → scanC acc ts = acc := by
  intro ts
  induction ts with
  | nil => intro acc _; rfl
  | cons t ts ih =>
    intro acc h
    have he : acc.isEmpty = false := by simpa [List.isEmpty_iff] using h
    show scanC (if acc.isEmpty then _ else acc) ts = acc
    rw [he]
    exact ih acc h

/-- Cells that trigger no fuzzy match leave the committee empty. -/
theorem scanC_pre_none :
    ∀ (pre rest : List Str), (∀ x ∈ pre, fuzzyCommittee x = none) →
      scanC [] (pre ++ rest) = scanC [] rest := by
  intro pre
  induction pre with
  | nil => intro rest _; rfl
  | cons p ps ih =>
    intro rest h
    have hp : fuzzyCommittee p = none := h p (List.mem_cons_self p ps)
    rw [List.cons_append]
    show scanC
      (if ([] : Str).isEmpty then
        match fuzzyCommittee p with
        | some c => c
        | none => ([] : Str)
      else []) (ps ++ rest) = scanC [] rest
    rw [hp]
    exact ih rest (fun x hx => h x (List.mem_cons_of_mem p hx))

/-- Inserting permutes. -/
theorem insertDesc_perm (x : Scored) (l : List Scored) :
    List.Perm (insertDesc x l) (x :: l) := by
  induction l with
  | nil => exact List.Perm.refl _
  | cons y ys ih =>
    simp only [insertDesc]
    split
    · exact (ih.cons y).trans (List.Perm.swap x y ys)
    · exact List.Perm.refl _

/-- Sorting permutes. -/
theorem sortDesc_perm (l : List Scored) : List.Perm (sortDesc l) l := by
  induction l with
  | nil => exact List.Perm.refl _
  | cons x xs ih => exact (insertDesc_perm x (sortDesc xs)).trans (ih.cons x)

/-- Inserting into a list sorted by non-increasing score keeps it
sorted. -/
theorem insertDesc_pairwise (x : Scored) (l : List Scored)
    (hl : l.Pairwise (fun a b => b.score ≤ a.score)) :
    (insertDesc x l).Pairwise (fun a b => b.score ≤ a.score) := by
  induction l with
  | nil => simp [insertDesc]
  | cons y ys ih =>
    rw [List.pairwise_cons] at hl
    simp only [insertDesc]
    split
    · refine List.pairwise_cons.mpr ⟨?_, ih hl.2⟩
      intro z hz
      rcases List.mem_cons.mp ((insertDesc_perm x ys).mem_iff.mp hz) with hzx | hzys
      · rename_i hlt
        subst hzx
        omega
      · exact hl.1 z hzys
    · rename_i hge
      refine List.pairwise_cons.mpr ⟨?_, List.pairwise_cons.mpr hl⟩
      intro z hz
      rcases List.mem_cons.mp hz with hzy | hzys
      · subst hzy
        omega
      · have := hl.1 z hzys
        omega

/-- The output of `sortDesc` is sorted by non-increasing score. -/
theorem sortDesc_pairwise (l : List Scored) :
    (sortDesc l).Pairwise (fun a b => b.score ≤ a.score) := by
  induction l with
  | nil => simp [sortDesc]
  | cons x xs ih => exact insertDesc_pairwise x (sortDesc xs) ih

/-- Stability of insertion: restricted to any one score value, inserting
behaves like consing. -/
theorem filter_insertDesc (k : Int) (x : Scored) (l : List Scored) :
    (insertDesc x l).filter (fun r => decide (r.score = k)) =
      ((x :: l).filter (fun r => decide (r.score = k))) := by
  induction l with
  | nil => rfl
  | cons y ys ih =>
    simp only [insertDesc]
    split
    · rename_i hlt
      by_cases hx : x.score = k
      · have hy : ¬y.score = k := by omega
        simp only [List.filter_cons, hy, decide_eq_true_eq, if_neg, ih, hx, if_pos]
        simp [hy]
      · simp only [List.filter_cons, decide_eq_true_eq, ih, hx, if_neg]
        simp [hx, List.filter_cons]
    · rfl

/-- Stability of the sort: restricted to any one score value, the sorted
list equals the input — equal-score elements keep their relative
order. -/
theorem filter_sortDesc (k : Int) (l : List Scored) :
    (sortDesc l).filter (fun r => decide (r.score = k)) =
      l.filter (fun r => decide (r.score = k)) := by
  induction l with
  | nil => rfl
  | cons x xs ih =>
    simp only [sortDesc]
    rw [filter_insertDesc]
    simp [List.filter_cons, ih]

/-! ## Claims -/

/-- C1: `_classify_time` always lands in one of the four buckets; when no
`H:MM AM/PM` substring exists it returns Morning, and otherwise it
buckets the 24-hour conversion (PM hour other than 12 gains 12,
12PM stays 12, 12AM becomes 0) at the boundaries 12/17/21. -/
theorem claim_C1 (timeRaw : Str) :
    (classifyTime timeRaw = str "Morning" ∨ classifyTime timeRaw = str "Afternoon" ∨
      classifyTime timeRaw = str "Evening" ∨ classifyTime timeRaw = str "Overnight") ∧
    classifyTime timeRaw =
      (match findTime timeRaw with
       | none => str "Morning"
       | some (h, _, pm) =>
         let hour :=
           if pm = true ∧ ¬h = 12 then h + 12
           else if pm = false ∧ h = 12 then 0
           else h
         if hour < 12 then str "Morning"
         else if hour < 17 then str "Afternoon"
         else if hour < 21 then str "Evening"
         else str "Overnight") := by
  constructor
  · unfold classifyTime
    rcases findTime timeRaw with _ | ⟨h, mi, pm⟩
    · simp
    · dsimp only
      split_ifs <;> simp
  · unfold classifyTime
    rcases findTime timeRaw with _ | ⟨h, mi, pm⟩
    · rfl
    · simp only [to24_eq]

/-- C2: `ShiftMatcher.score` is a pure function — equal inputs give equal
outputs — and the clamped score always lies in `[0, 120]`. -/
theorem claim_C2 (m : Matcher) (s : Shift) :
    0 ≤ (score m s).score ∧ (score m s).score ≤ 120 ∧
    ∀ m' s', m' = m → s' = s → score m' s' = score m s := by
  refine ⟨?_, ?_, ?_⟩
  · exact le_max_left 0 _
  · exact max_le (by norm_num) (min_le_left _ _)
  · intro m' s' hm hs
    rw [hm, hs]

/-- Witness for C2 at a concrete record and preference set. -/
theorem claim_C2_witness :
    0 ≤ (score (mkMatcher {}) {}).score ∧
    (score (mkMatcher {}) {}).score ≤ 120 ∧
    score (mkMatcher {}) {} = score (mkMatcher {}) {} := by
  have h := claim_C2 (mkMatcher {}) {}
  exact ⟨h.1, h.2.1, h.2.2 _ _ rfl rfl⟩

/-- C4: the coordinator returns the table strategy's output whenever it
is nonempty, otherwise exactly the grid strategy's output; when the grid
container is also absent the overall result is the empty record list
(a value, not an exception — every embedded extractor is total). -/
theorem claim_C4 (doc : Document) (rnd : Nat → Nat → Nat) :
    (parseShifts doc.tables rnd ≠ [] →
      getShiftsParsed doc rnd = parseShifts doc.tables rnd) ∧
    (parseShifts doc.tables rnd = [] →
      getShiftsParsed doc rnd = parseColumnLayout doc.grid) ∧
    (parseShifts doc.tables rnd = [] → doc.grid = none →
      getShiftsParsed doc rnd = []) := by
  refine ⟨fun h => ?_, fun h => ?_, fun h hg => ?_⟩
  · simp [getShiftsParsed, List.isEmpty_iff, h]
  · simp [getShiftsParsed, List.isEmpty_iff, h]
  · simp [getShiftsParsed, List.isEmpty_iff, h, hg, parseColumnLayout]

/-- Witness for C4: empty tables and no grid container yield the empty
record list. -/
theorem claim_C4_witness :
    getShiftsParsed ⟨[], none⟩ (fun _ _ => 1) = [] := by
  have h := claim_C4 ⟨[], none⟩ (fun _ _ => 1)
  exact h.2.2 rfl rfl

/-- C3: `ShiftMatcher.rank` drops exactly the records whose committee
case-insensitively equals an excluded entry, scores the survivors, and
returns them sorted by non-increasing score with the stable-sort
guarantee: restricted to any one score value the output order equals the
input (extraction) order. -/
theorem claim_C3 (p : Prefs) (shifts : List Shift) :
    (∀ r ∈ rank (mkMatcher p) shifts,
      ¬∃ e ∈ p.excludedCommittees, lowerStr r.shift.committee = lowerStr e) ∧
    (∀ s ∈ shifts, keepShift (mkMatcher p) s = true ↔
      ¬∃ e ∈ p.excludedCommittees, lowerStr s.committee = lowerStr e) ∧
    List.Perm (rank (mkMatcher p) shifts)
      ((shifts.filter (keepShift (mkMatcher p))).map (score (mkMatcher p))) ∧
    (rank (mkMatcher p) shifts).Pairwise (fun a b => b.score ≤ a.score) ∧
    (∀ k : Int,
      (rank (mkMatcher p) shifts).filter (fun r => decide (r.score = k)) =
        ((shifts.filter (keepShift (mkMatcher p))).map
          (score (mkMatcher p))).filter (fun r => decide (r.score = k))) := by
  have hkeep : ∀ s : Shift, keepShift (mkMatcher p) s = true ↔
      ¬∃ e ∈ p.excludedCommittees, lowerStr s.committee = lowerStr e := by
    intro s
    simp only [keepShift, mkMatcher, Bool.not_eq_true', decide_eq_false_iff_not,
      List.mem_map]
    constructor
    · intro hs ⟨e, he, heq⟩
      exact hs ⟨e, he, heq.symm⟩
    · intro hs ⟨e, he, heq⟩
      exact hs ⟨e, he, heq.symm⟩
  refine ⟨?_, fun s _ => hkeep s, sortDesc_perm _, sortDesc_pairwise _,
    fun k => filter_sortDesc k _⟩
  intro r hr
  have hr' := (sortDesc_perm _).mem_iff.mp hr
  rcases List.mem_map.mp hr' with ⟨s, hs, hscore⟩
  rcases List.mem_filter.mp hs with ⟨_, hsk⟩
  have hcomm : r.shift = s := by rw [← hscore]; rfl
  rw [hcomm]
  exact (hkeep s).mp hsk

/-- Witness for C3 at a concrete input: the excluded record never
appears, the survivor's keep-flag matches the case-insensitive test, and
stability holds at its score. -/
theorem claim_C3_witness :
    (¬∃ e ∈ c3prefs.excludedCommittees,
      lowerStr (score (mkMatcher c3prefs) c3prod).shift.committee = lowerStr e) ∧
    (keepShift (mkMatcher c3prefs) c3prod = true ↔
      ¬∃ e ∈ c3prefs.excludedCommittees,
        lowerStr c3prod.committee = lowerStr e) ∧
    (rank (mkMatcher c3prefs) [c3ftop, c3prod]).filter
        (fun r => decide (r.score = 100)) =
      (([c3ftop, c3prod].filter (keepShift (mkMatcher c3prefs))).map
        (score (mkMatcher c3prefs))).filter (fun r => decide (r.score = 100)) := by
  have h := claim_C3 c3prefs [c3ftop, c3prod]
  exact ⟨h.1 (score (mkMatcher c3prefs) c3prod) (by decide),
    h.2.1 c3prod (by decide), h.2.2.2.2 100⟩

/-- C5 counterexample: on `"12:00AM"` the scorer's lateness conversion
(which omits the 12AM→0 step) derives hour 12 while `_classify_time`
derives hour 0, so the two derived hours are not equal on every input. -/
theorem claim_C5_counterexample :
    lateHour (str "12:00AM") = some 12 ∧
    classifyHour24 (str "12:00AM") = some 0 ∧ (12 : Nat) ≠ 0 := by
  refine ⟨rfl, rfl, by decide⟩

/-- C5 (amended): the scorer's lateness conversion and
`_classify_time`'s conversion succeed on exactly the same inputs and
differ only at 12AM (12 versus 0), so the threshold test `hour ≥ 21`
agrees between them on every input; the scorer subtracts 10 and adds the
`late` breakdown entry iff a valid time was found whose (classify-)hour
is at least 21, and otherwise adds no entry and leaves the score as the
clamp of the pre-lateness base. -/
theorem claim_C5 (timeRaw : Str) (m : Matcher) (s : Shift) :
    ((lateHour timeRaw).isSome ↔ (classifyHour24 timeRaw).isSome) ∧
    (∀ h h', lateHour timeRaw = some h → classifyHour24 timeRaw = some h' →
      (21 ≤ h ↔ 21 ≤ h')) ∧
    (lateFire timeRaw = true ↔
      ∃ h, classifyHour24 timeRaw = some h ∧ 21 ≤ h) ∧
    (s.time_raw = timeRaw →
      ((score m s).breakdown.late =
        if lateFire timeRaw then some (str "Late evening shift (-10%)") else none) ∧
      (score m s).score =
        max 0 (min 120 (scoreBase m s + if lateFire timeRaw then -10 else 0))) := by
  have hcore : ∀ hh pm, (21 ≤ (if pm && hh != 12 then hh + 12 else hh)) ↔
      (21 ≤ to24 hh pm) := by
    intro hh pm
    cases pm <;> by_cases h12 : hh = 12 <;> simp [to24, h12]
  refine ⟨?_, ?_, ?_, ?_⟩
  · simp [lateHour, classifyHour24]
  · intro h h' hh hh'
    rcases hf : findTime timeRaw with _ | ⟨hh0, mm, pm⟩
    · rw [lateHour, hf] at hh
      exact absurd hh (by simp)
    · have hl : lateHour timeRaw =
          some (if pm && hh0 != 12 then hh0 + 12 else hh0) := by
        rw [lateHour, hf]
        rfl
      have hc : classifyHour24 timeRaw = some (to24 hh0 pm) := by
        rw [classifyHour24, hf]
        rfl
      rw [hl, Option.some_inj] at hh
      rw [hc, Option.some_inj] at hh'
      rw [← hh, ← hh']
      exact hcore hh0 pm
  · rcases hf : findTime timeRaw with _ | ⟨hh0, mm, pm⟩
    · have hl : lateHour timeRaw = none := by
        rw [lateHour, hf]
        rfl
      have hc : classifyHour24 timeRaw = none := by
        rw [classifyHour24, hf]
        rfl
      simp [lateFire, hl, hc]
    · have hl : lateHour timeRaw =
          some (if pm && hh0 != 12 then hh0 + 12 else hh0) := by
        rw [lateHour, hf]
        rfl
      have hc : classifyHour24 timeRaw = some (to24 hh0 pm) := by
        rw [classifyHour24, hf]
        rfl
      simp only [lateFire, hl, hc, Option.some.injEq, decide_eq_true_eq]
      constructor
      · intro hle
        exact ⟨to24 hh0 pm, rfl, (hcore hh0 pm).mp hle⟩
      · rintro ⟨h, rfl, hle⟩
        exact (hcore hh0 pm).mpr hle
  · intro hst
    subst hst
    exact ⟨rfl, rfl⟩

/-- Witness for C5 at `"9:30PM"`: the hour threshold agrees, the late
entry is present, and the score is the clamped base minus 10. -/
theorem claim_C5_witness :
    ((21 : Nat) ≤ 21 ↔ (21 : Nat) ≤ 21) ∧
    (lateFire (str "9:30PM") = true ↔
      ∃ h, classifyHour24 (str "9:30PM") = some h ∧ 21 ≤ h) ∧
    (score (mkMatcher {}) c5shift).breakdown.late =
      some (str "Late evening shift (-10%)") := by
  have h := claim_C5 (str "9:30PM") (mkMatcher {}) c5shift
  refine ⟨h.2.1 21 21 rfl rfl, h.2.2.1, ?_⟩
  have hl := (h.2.2.2 rfl).1
  rw [hl]
  rfl

/-- C9: within one extraction call — whichever strategy produced the
output — the emitted ids are exactly the zero-padded ordinals
`shift_001, shift_002, …` of the counter values `1, 2, …` in emission
order, hence distinct. -/
theorem claim_C9 (doc : Document) (rnd : Nat → Nat → Nat) :
    ((getShiftsParsed doc rnd).map Shift.id =
      (List.range' 1 (getShiftsParsed doc rnd).length).map mkId) ∧
    ((getShiftsParsed doc rnd).map Shift.id).Nodup ∧
    mkId 1 = str "shift_001" ∧ mkId 99 = str "shift_099" ∧
    mkId 1234 = str "shift_1234" := by
  have hids : (getShiftsParsed doc rnd).map Shift.id =
      (List.range' 1 (getShiftsParsed doc rnd).length).map mkId := by
    rw [getShiftsParsed]
    by_cases hp : (parseShifts doc.tables rnd).isEmpty
    · rw [if_pos hp]
      cases hg : doc.grid with
      | none => simp [parseColumnLayout]
      | some cols =>
        rw [parseColumnLayout]
        simpa using (parseColsAux_ids cols 0).1
    · rw [if_neg hp, parseShifts]
      simpa using parseShiftsAux_ids rnd doc.tables 0 0
  refine ⟨hids, ?_, rfl, rfl, rfl⟩
  rw [hids]
  exact (List.nodup_range' 1 (getShiftsParsed doc rnd).length).map mkId_injective

/-- C6 counterexample: a grid column that contains a shift link but no
`<p>` element is skipped wholesale by `_parse_column_layout` (the
`continue` on a missing header), so its link yields no record — refuting
"every shift-link element in every day column yields exactly one
emitted record". -/
theorem claim_C6_counterexample :
    c6col.links.length = 1 ∧ parseColumnLayout (some [c6col]) = [] := by
  exact ⟨rfl, rfl⟩

/-- C6 (amended): in the grid strategy a column is processed only when
it has a `<p>` header element — headerless columns are skipped with all
their links; each processed column emits exactly one record per
shift-link, and when its header text does not match the
day-abbreviation/date pattern the emitted records carry day "Unknown"
and an empty date string. -/
theorem claim_C6 (cols : List GridCol) :
    ((parseColumnLayout (some cols)).length =
      (cols.map (fun col =>
        match col.header with
        | none => 0
        | some _ => col.links.length)).sum) ∧
    (∀ col : GridCol, col.header = none → parseColumnLayout (some [col]) = []) ∧
    (∀ (col : GridCol) (htext : Str), col.header = some htext →
      parseHeader htext = none →
      (parseColumnLayout (some [col])).length = col.links.length ∧
      ∀ r ∈ parseColumnLayout (some [col]),
        r.day = str "Unknown" ∧ r.date = some []) := by
  refine ⟨parseColsAux_length cols 0, ?_, ?_⟩
  · intro col hcol
    rw [parseColumnLayout, parseColsAux, hcol]
    rfl
  · intro col htext hcol hph
    constructor
    · rw [parseColumnLayout, parseColsAux_length]
      simp [hcol]
    · intro r hr
      rw [parseColumnLayout, parseColsAux, hcol] at hr
      simp only [hph] at hr
      rcases List.mem_append.mp hr with h | h
      · exact emitLinks_mem (str "Unknown") [] col.links 0 r h
      · simp [parseColsAux] at h

/-- Witness for C6: a column whose header text is "Holiday" (no day/date
match) emits one record per link, with day "Unknown" and empty date. -/
theorem claim_C6_witness :
    (parseColumnLayout (some [c6wcol])).length = c6wcol.links.length ∧
    (gridLinkShift (str "Unknown") [] 1 c6link).day = str "Unknown" ∧
    (gridLinkShift (str "Unknown") [] 1 c6link).date = some [] := by
  have h := (claim_C6 [c6wcol]).2.2 c6wcol (str "Holiday") rfl (by decide)
  exact ⟨h.1, h.2 (gridLinkShift (str "Unknown") [] 1 c6link) (by decide)⟩

/-- C10: `_fuzzy_committee` answers non-null whenever the stripped
lower-cased input is a substring of some catalog name; in particular an
empty or whitespace-only input returns the first catalog entry
"Receiving"; consequently a data row with an empty cell and no earlier
committee signal is assigned committee "Receiving" and passes the
time-or-category rejection check of `_extract_shift`. -/
theorem claim_C10 (t : Str) (cells : List Cell) (hmap : HMap)
    (curDay : Option Str) (tbl row rnd : Nat) :
    ((∃ c ∈ KNOWN_COMMITTEES, lowerStr (stripStr t) <:+: lowerStr c) →
      fuzzyCommittee t ≠ none) ∧
    (stripStr t = [] → fuzzyCommittee t = some (str "Receiving")) ∧
    (∀ pre post : List Str,
      cells.map Cell.text = pre ++ ([] : Str) :: post →
      (∀ x ∈ pre, fuzzyCommittee x = none) →
      (if hmap.nonempty then
        (safeIdx (cells.map Cell.text) hmap.committee).getD []
       else []) = [] →
      ∃ sh, extractShift cells hmap curDay tbl row rnd = some sh ∧
        sh.committee = str "Receiving") := by
  refine ⟨?_, ?_, ?_⟩
  · rintro ⟨c, hc, hinf⟩ hnone
    simp only [fuzzyCommittee] at hnone
    have h := List.find?_eq_none.mp hnone c hc
    apply h
    rw [Bool.or_eq_true]
    right
    exact (isSubstr_iff _ _).mpr hinf
  · intro hstrip
    simp only [fuzzyCommittee]
    rw [hstrip]
    decide
  · intro pre post htexts hpre hc0
    have hst : (scanCells
        { day := if hmap.nonempty then
            pyOrOpt curDay (safeIdx (cells.map Cell.text) hmap.day)
          else curDay,
          time_raw := if hmap.nonempty then
            (safeIdx (cells.map Cell.text) hmap.time).getD []
          else [],
          committee := if hmap.nonempty then
            (safeIdx (cells.map Cell.text) hmap.committee).getD []
          else [],
          slots := if hmap.nonempty then
            (safeIdx (cells.map Cell.text) hmap.slots).getD []
          else [] }
        (cells.map Cell.text)).committee = str "Receiving" := by
      rw [scanCells_committee]
      show scanC
        (if hmap.nonempty then
          (safeIdx (cells.map Cell.text) hmap.committee).getD []
         else []) (cells.map Cell.text) = str "Receiving"
      rw [hc0, htexts, scanC_pre_none pre _ hpre]
      have hfirst : scanC ([] : Str) (([] : Str) :: post) =
          scanC (str "Receiving") post := rfl
      rw [hfirst]
      exact scanC_stays post (str "Receiving") (by decide)
    have hrecv : (str "Receiving").isEmpty = false := rfl
    rcases hE : extractShift cells hmap curDay tbl row rnd with _ | sh
    · exfalso
      simp only [extractShift] at hE
      rw [hst, hrecv, Bool.and_false] at hE
      simp at hE
    · refine ⟨sh, rfl, ?_⟩
      simp only [extractShift] at hE
      rw [hst, hrecv, Bool.and_false] at hE
      rw [if_neg (by simp)] at hE
      injection hE with hE
      rw [← hE]
      show (if (str "Receiving").isEmpty then str "General"
        else str "Receiving") = str "Receiving"
      rw [hrecv]
      rfl

/-- Witness for C10: the empty string and a whitespace string map to
"Receiving"; a row with an empty first cell and no header map emits a
record with committee "Receiving". -/
theorem claim_C10_witness :
    fuzzyCommittee (str "  ") = some (str "Receiving") ∧
    fuzzyCommittee (str "prod") ≠ none ∧
    ∃ sh, extractShift c10cells {} none 0 1 3 = some sh ∧
      sh.committee = str "Receiving" := by
  have h := claim_C10 (str "  ") c10cells {} none 0 1 3
  have h2 := claim_C10 (str "prod") c10cells {} none 0 1 3
  refine ⟨h.2.1 (by decide), ?_, ?_⟩
  · refine h2.1 ⟨str "Produce", ?_, ?_⟩
    · decide
    · decide
  · exact h.2.2 [] [str "9:00AM"] rfl (by simp) rfl

/-- C7 counterexample: a record whose slots field is missing gets the
breakdown note "0 slots available" — `int(shift.get("slots", 0))`
parses the integer default 0 — not the "Slots unknown" note the claim
requires for missing slots. -/
theorem claim_C7_counterexample :
    c7shift.slots = none ∧
    (score (mkMatcher {}) c7shift).breakdown.slots = str "0 slots available" ∧
    str "0 slots available" ≠ str "Slots unknown" := by
  refine ⟨rfl, rfl, by decide⟩

/-- C7 (amended): a missing slots field parses as the integer default 0
and is noted "0 slots available" with zero contribution; only a
non-integer string value gives the "Slots unknown" note with zero
contribution; a parsed value above 3 contributes +5, exactly 1
contributes −5, and anything else 0 — with the term feeding both the
breakdown entry and the additive base of the score. -/
theorem claim_C7 (m : Matcher) (s : Shift) :
    ((score m s).breakdown.slots = (slotsTerm s.slots).2) ∧
    (scoreBase m s =
      100 + (committeeTerm m s.committee).1 + (dayTerm m s.day).1 +
        (timeTerm m s.time_slot).1 + (slotsTerm s.slots).1) ∧
    (s.slots = none → slotsTerm s.slots = (0, str "0 slots available")) ∧
    (∀ v, s.slots = some v → pyInt v = none →
      slotsTerm s.slots = (0, str "Slots unknown")) ∧
    (∀ v n, s.slots = some v → pyInt v = some n → 3 < n →
      slotsTerm s.slots = (5, intRepr n ++ str " slots available (+5%)")) ∧
    (∀ v n, s.slots = some v → pyInt v = some n → n = 1 →
      slotsTerm s.slots = (-5, str "Only 1 slot left (-5%)")) ∧
    (∀ v n, s.slots = some v → pyInt v = some n → ¬3 < n → n ≠ 1 →
      slotsTerm s.slots = (0, intRepr n ++ str " slots available")) := by
  refine ⟨rfl, rfl, ?_, ?_, ?_, ?_, ?_⟩
  · intro h
    rw [h]
    rfl
  · intro v hv hp
    rw [hv, slotsTerm, hp]
  · intro v n hv hp h3
    rw [hv, slotsTerm, hp]
    simp only [slotsFromInt, if_pos h3]
  · intro v n hv hp h1
    subst h1
    rw [hv, slotsTerm, hp]
    rfl
  · intro v n hv hp h3 h1
    rw [hv, slotsTerm, hp]
    simp only [slotsFromInt]
    rw [if_neg h3, if_neg (by simpa using h1)]

/-- Witness for C7: a non-numeric slots string gives the unknown note
with zero contribution, and the breakdown carries that note. -/
theorem claim_C7_witness :
    slotsTerm c7wshift.slots = (0, str "Slots unknown") ∧
    (score (mkMatcher {}) c7wshift).breakdown.slots =
      (slotsTerm c7wshift.slots).2 := by
  have h := claim_C7 (mkMatcher {}) c7wshift
  exact ⟨h.2.2.2.1 (str "a few") rfl (by decide), h.1⟩

/-- C8 (code evaluated at the failing input): `ShiftMatcher.__init__`
raises `TypeError` on a non-iterable `days` value instead of treating it
as an empty preference list. -/
theorem claim_C8_init_raises : pyInit badPrefs = .error .typeError := rfl

end ShiftMatch
